import Mathlib

/-!
Verification of the duct IPC library against its specification.

This file shallowly embeds the core components of the repository:
the status/result model (include/duct/status.h), the wire framing codec
(src/state_callback_pipe.cc, duct::wire), the shared-memory ring transport
(ShmPipe in the shm transport translation unit), the bounded message queue
(src/queue.cc), the QoS send path (src/qos_pipe.cc), the reconnect
supervisor (ReconnectPipe), close idempotence across pipe wrappers, and the
transport dispatch (duct::dial).  Bytes are modelled as natural numbers
below 256, machine integers as naturals with explicit bounds, and fallible
operations as Except values.
-/

namespace Duct

/-- Status codes, mirroring enum class StatusCode in include/duct/status.h. -/
inductive StatusCode where
  | ok
  | invalidArgument
  | notSupported
  | ioError
  | timeout
  | closed
  | protocolError
deriving DecidableEq, Repr

/-- A status is a code plus a human-readable message (include/duct/status.h). -/
structure Status where
  code : StatusCode
  message : String
deriving DecidableEq, Repr

def Status.isOk (s : Status) : Bool := s.code = StatusCode.ok

/-- Result of a fallible operation returning a value of type a
(Result(T) in the source): either the value or a non-Ok status. -/
abbrev DResult (a : Type) := Except Status a

/-- The status code carried by a result: Ok on success, the error code otherwise. -/
def resultCode {a : Type} : DResult a → StatusCode
  | .ok _ => StatusCode.ok
  | .error st => st.code

/-- Backpressure policies, mirroring enum class BackpressurePolicy in
include/duct/duct.h. -/
inductive BackpressurePolicy where
  | kBlock
  | kDropNew
  | kDropOld
  | kFailFast
deriving DecidableEq, Repr

/-- Mutable state of a MessageQueue (src/queue.cc): the deque of queued
messages, the tracked byte total and the closed flag.  Entries are the
message payloads; the enqueue-time/deadline metadata is omitted because
the TTL logic is not exercised by any push-path claim. -/
structure QState where
  queue : List (List Nat)
  total_bytes : Nat
  closed : Bool
deriving DecidableEq, Repr

/-- MessageQueue::size_bytes, the externally observable byte total. -/
def size_bytes (s : QState) : Nat := s.total_bytes

/-- MessageQueue::size_msgs, the externally observable message count. -/
def size_msgs (s : QState) : Nat := s.queue.length

/-- MessageQueue::has_space_unlocked: an HWM of 0 means no limit,
otherwise space exists while the total is strictly below the HWM. -/
def hasSpace (hwm total : Nat) : Bool :=
  if hwm = 0 then true else total < hwm

/-- The drop_oldest_unlocked loop run by the kDropOld branch of push:
while not has_space and the queue is non-empty, pop the front entry and
subtract its size from the total. -/
def dropUntil (hwm : Nat) : List (List Nat) → Nat → List (List Nat) × Nat
  | [], total => ([], total)
  | m :: rest, total =>
      if hasSpace hwm total then (m :: rest, total)
      else dropUntil hwm rest (total - m.length)

/-- The predicate of the not-full condition wait in the kBlock branch of
MessageQueue::push. -/
def blockPred (hwm msgSize : Nat) (s : QState) : Bool :=
  s.closed || hasSpace hwm s.total_bytes || decide (hwm = 0) ||
    decide (s.total_bytes + msgSize ≤ hwm)

/-- Appending the message and growing the byte total (queue_.push_back and
total_bytes_ += msg_size in push). -/
def enqueueMsg (s : QState) (msg : List Nat) : QState :=
  { queue := s.queue ++ [msg], total_bytes := s.total_bytes + msg.length,
    closed := s.closed }

/-- Outcome of running MessageQueue::push up to its first suspension
point: either the call completed with a status and a new queue state, or
the caller entered the not-full condition wait (kBlock only). -/
inductive PushOutcome where
  | done (st : Status) (s : QState)
  | await
deriving DecidableEq, Repr

/-- Result(void)(): the Ok status. -/
def statusOkV : Status := ⟨StatusCode.ok, ""⟩

/-- MessageQueue::push (src/queue.cc lines 12-77), up to the first
suspension point.  The HWM trigger, the four policy branches, and the
enqueue mirror the source; in the kBlock branch the condition wait
returns immediately when its predicate already holds, otherwise the
caller suspends (PushOutcome.await) and is modelled by pushResume. -/
def push (hwm : Nat) (policy : BackpressurePolicy) (s : QState)
    (msg : List Nat) : PushOutcome :=
  if s.closed then .done ⟨StatusCode.closed, "queue closed"⟩ s
  else if ¬ hasSpace hwm s.total_bytes ∨
      (s.total_bytes + msg.length > hwm ∧ 0 < hwm) then
    match policy with
    | .kBlock =>
        if blockPred hwm msg.length s then
          if s.closed then .done ⟨StatusCode.closed, "queue closed"⟩ s
          else .done statusOkV (enqueueMsg s msg)
        else .await
    | .kDropNew => .done statusOkV s
    | .kDropOld =>
        let dropped := dropUntil hwm s.queue s.total_bytes
        .done statusOkV (enqueueMsg
          { queue := dropped.1, total_bytes := dropped.2, closed := s.closed } msg)
    | .kFailFast =>
        .done ⟨StatusCode.ioError, "queue at high water mark (EAGAIN)"⟩ s
  else .done statusOkV (enqueueMsg s msg)

/-- The continuation of a kBlock push after its condition wait returns.
w is the queue state observed when the wait call returned (the mutex is
re-held); timeoutPos records whether a positive timeout was supplied, in
which case wait_for may return with the predicate still false and push
reports Timeout.  Otherwise the closed flag is rechecked and the message
is enqueued, exactly as in the source after the switch. -/
def pushResume (hwm : Nat) (timeoutPos : Bool) (msg : List Nat)
    (w : QState) : Status × QState :=
  if timeoutPos ∧ ¬ blockPred hwm msg.length w then
    (⟨StatusCode.timeout, "push timed out waiting for queue space"⟩, w)
  else if w.closed then (⟨StatusCode.closed, "queue closed"⟩, w)
  else (statusOkV, enqueueMsg w msg)

/-- MessageQueue::close: latches the closed flag (waiter wakeups carry no
state beyond it). -/
def closeQueue (s : QState) : QState :=
  { queue := s.queue, total_bytes := s.total_bytes, closed := true }

/-- A queue state whose tracked byte total is the sum of the sizes of the
queued messages (the invariant the source maintains). -/
def consistentQ (s : QState) : Prop :=
  s.total_bytes = (s.queue.map List.length).sum

/-- Mutable send-side state of a QosPipe (src/qos_pipe.cc): the running
flag, the send queue, and the tracked byte and message counters. -/
structure QosState where
  running : Bool
  send_queue : List (List Nat)
  send_bytes : Nat
  send_count : Nat
deriving DecidableEq, Repr

/-- Appending a message to the QoS send queue (send_queue_.emplace_back,
send_bytes_ +=, send_count_ += in QosPipe::send). -/
def qosEnqueue (s : QosState) (msg : List Nat) : QosState :=
  { running := s.running, send_queue := s.send_queue ++ [msg],
    send_bytes := s.send_bytes + msg.length, send_count := s.send_count + 1 }

/-- Outcome of QosPipe::send up to its first suspension point: completed
with a status and new state, or suspended in the kBlock wait_for. -/
inductive QosSendOutcome where
  | done (st : Status) (s : QosState)
  | await
deriving DecidableEq, Repr

/-- QosPipe::send (src/qos_pipe.cc lines 104-156): rejects when not
running (Closed) or when msg.size() > snd_hwm_bytes (InvalidArgument);
when send_bytes >= snd_hwm_bytes applies the backpressure policy
(FailFast errors, DropNew silently succeeds, DropOld pops at most one
oldest entry then enqueues, kBlock enters the wait_for); otherwise
enqueues and returns Ok. -/
def qosSend (hwm : Nat) (policy : BackpressurePolicy) (s : QosState)
    (msg : List Nat) : QosSendOutcome :=
  if ¬ s.running then .done ⟨StatusCode.closed, "pipe closed"⟩ s
  else if msg.length > hwm then
    .done ⟨StatusCode.invalidArgument, "message too large for queue limits"⟩ s
  else if s.send_bytes ≥ hwm then
    match policy with
    | .kFailFast =>
        .done ⟨StatusCode.ioError, "send queue at high water mark (fail fast)"⟩ s
    | .kDropNew => .done ⟨StatusCode.ok, ""⟩ s
    | .kDropOld =>
        let s' := match s.send_queue with
          | [] => s
          | old :: rest =>
              { running := s.running, send_queue := rest,
                send_bytes := s.send_bytes - old.length,
                send_count := s.send_count - 1 }
        .done ⟨StatusCode.ok, ""⟩ (qosEnqueue s' msg)
    | .kBlock => .await
  else .done ⟨StatusCode.ok, ""⟩ (qosEnqueue s msg)

/-- The continuation of a kBlock QosPipe::send after its wait_for
returns with state w: if the byte counter is still at or above the HWM
the send reports Timeout, otherwise it enqueues and returns Ok. -/
def qosSendResume (hwm : Nat) (w : QosState) (msg : List Nat) :
    Status × QosState :=
  if w.send_bytes ≥ hwm then
    (⟨StatusCode.timeout, "send queue full (timeout)"⟩, w)
  else (⟨StatusCode.ok, ""⟩, qosEnqueue w msg)

/-- Connection states, mirroring enum class ConnectionState. -/
inductive ConnectionState where
  | kConnecting
  | kConnected
  | kDisconnected
  | kReconnecting
  | kClosed
deriving DecidableEq, Repr

/-- Supervisor state of a ReconnectPipe: the closed and
permanently-failed latches, the observable connection state, the
ever-connected flag, the last error text, and the currently installed
inner pipe (the single shared_ptr inner_), identified by a number. -/
structure ReconState where
  closed : Bool
  permanently_failed : Bool
  state : ConnectionState
  ever_connected : Bool
  last_error : String
  inner : Option Nat
deriving DecidableEq, Repr

/-- ReconnectPipe::mark_disconnected: under the lock, returns untouched
when closed, when no inner pipe is installed, or when the erroring
snapshot is not the currently installed pipe (stale error from a prior
connection); otherwise moves the inner pipe out, records the reason and
transitions to Disconnected. -/
def markDisconnected (s : ReconState) (which : Nat) (reason : String) : ReconState :=
  if s.closed then s
  else
    match s.inner with
    | none => s
    | some p =>
        if p ≠ which then s
        else
          { closed := s.closed, permanently_failed := s.permanently_failed,
            state := ConnectionState.kDisconnected,
            ever_connected := s.ever_connected, last_error := reason,
            inner := none }

/-- Error handling in ReconnectPipe::send / recv: Closed and IoError are
classified as disconnects and routed to mark_disconnected with the
snapshot of the pipe the operation ran on; Timeout and every other code
surface unchanged without touching supervisor state. -/
def reconError (s : ReconState) (snapshot : Nat) (code : StatusCode)
    (reason : String) : ReconState :=
  if code = StatusCode.closed ∨ code = StatusCode.ioError then
    markDisconnected s snapshot reason
  else s

/-- The dial-success branch of ReconnectPipe::worker_loop: the worker
only dials while no inner pipe is installed and the supervisor is
neither closed nor permanently failed; on success it installs the new
pipe, latches ever_connected, clears the last error and emits
Connected. -/
def reconInstall (s : ReconState) (id : Nat) : ReconState :=
  if s.closed ∨ s.permanently_failed ∨ s.inner ≠ none then s
  else
    { closed := s.closed, permanently_failed := s.permanently_failed,
      state := ConnectionState.kConnected, ever_connected := true,
      last_error := "", inner := some id }

/-- ReconnectPipe::close: idempotent; latches closed, moves the inner
pipe out and emits Closed. -/
def reconClose (s : ReconState) : ReconState :=
  if s.closed then s
  else
    { closed := true, permanently_failed := s.permanently_failed,
      state := ConnectionState.kClosed, ever_connected := s.ever_connected,
      last_error := s.last_error, inner := none }

/-- The supervisor events that touch the inner pipe. -/
inductive ReconEvent where
  | install (id : Nat)
  | opError (snapshot : Nat) (code : StatusCode) (reason : String)
  | closeCall

def reconStep (s : ReconState) : ReconEvent → ReconState
  | .install id => reconInstall s id
  | .opError snap code reason => reconError s snap code reason
  | .closeCall => reconClose s

def reconRun (s : ReconState) (tr : List ReconEvent) : ReconState :=
  tr.foldl reconStep s

/-- The constructor state: not closed, not failed, Connecting (set_state
in the constructor), never connected, no inner pipe. -/
def reconInit : ReconState :=
  { closed := false, permanently_failed := false,
    state := ConnectionState.kConnecting, ever_connected := false,
    last_error := "", inner := none }

/-- The pipes currently installed in the supervisor (contents of the
single inner_ shared_ptr). -/
def installedPipes (s : ReconState) : List Nat := s.inner.toList

/-- Observable side effects a close() can perform: unmapping the shared
region, closing the region fd, closing or unlinking one of the four
named semaphores (indexed 0-3), unlinking the region, emitting a state
callback, closing the inner pipe, joining the worker thread. -/
inductive CloseEffect where
  | unmapRegion
  | closeRegionFd
  | closeSem (i : Nat)
  | unlinkSem (i : Nat)
  | unlinkRegion
  | emitState (st : ConnectionState)
  | closeInnerPipe (id : Nat)
  | joinWorker
deriving DecidableEq, Repr

/-- Handle state of a ShmPipe (struct ShmHandles plus the owner flag):
which handles are currently valid.  mem is the mapping, fd the shm fd,
the four booleans the semaphore handles. -/
structure ShmCloseState where
  mem : Bool
  fd : Bool
  c2s_items : Bool
  c2s_spaces : Bool
  s2c_items : Bool
  s2c_spaces : Bool
  owner : Bool
deriving DecidableEq, Repr

/-- ShmPipe::close: returns immediately when the mapping is gone and the
fd is already invalid; otherwise close_handles releases every valid
handle and, if this pipe owns the named objects, the four semaphores and
the region are unlinked. -/
def closeShm (s : ShmCloseState) : ShmCloseState × List CloseEffect :=
  if s.mem = false ∧ s.fd = false then (s, [])
  else
    ({ mem := false, fd := false, c2s_items := false, c2s_spaces := false,
       s2c_items := false, s2c_spaces := false, owner := s.owner },
      (if s.mem then [CloseEffect.unmapRegion] else []) ++
      (if s.fd then [CloseEffect.closeRegionFd] else []) ++
      (if s.c2s_items then [CloseEffect.closeSem 0] else []) ++
      (if s.c2s_spaces then [CloseEffect.closeSem 1] else []) ++
      (if s.s2c_items then [CloseEffect.closeSem 2] else []) ++
      (if s.s2c_spaces then [CloseEffect.closeSem 3] else []) ++
      (if s.owner then
        [CloseEffect.unlinkSem 0, CloseEffect.unlinkSem 1,
         CloseEffect.unlinkSem 2, CloseEffect.unlinkSem 3,
         CloseEffect.unlinkRegion] else []))

/-- ReconnectPipe::close with its observable effects: on the first call
it latches closed, moves the inner pipe out, emits the Closed state,
closes the inner pipe and joins the worker; a second call returns at the
closed_ check with no effects. -/
def closeReconEff (s : ReconState) : ReconState × List CloseEffect :=
  if s.closed then (s, [])
  else
    (reconClose s,
      [CloseEffect.emitState ConnectionState.kClosed] ++
      (match s.inner with
        | some p => [CloseEffect.closeInnerPipe p]
        | none => []) ++
      [CloseEffect.joinWorker])

/-- The state a QosPipe::close manipulates: the running flag and the
underlying pipe (of any modelled pipe-state type). -/
structure QosCloseState (σ : Type) where
  running : Bool
  inner : σ
deriving DecidableEq, Repr

/-- QosPipe::close: clears running, wakes the worker, and calls
underlying_->close() unconditionally on every invocation; its effects
are exactly those of the inner close. -/
def closeQos {σ : Type} (innerClose : σ → σ × List CloseEffect)
    (s : QosCloseState σ) : QosCloseState σ × List CloseEffect :=
  ({ running := false, inner := (innerClose s.inner).1 }, (innerClose s.inner).2)

/-- Address schemes, mirroring enum class Scheme in include/duct/protocol.h. -/
inductive Scheme where
  | kUnknown
  | kTcp
  | kUds
  | kShm
  | kPipe
deriving DecidableEq, Repr

/-- QoS options, mirroring struct QosOptions (include/duct/duct.h);
TTL in milliseconds.  The reserved reliability field is omitted. -/
structure QosOptions where
  snd_hwm_bytes : Nat
  rcv_hwm_bytes : Nat
  backpressure : BackpressurePolicy
  ttl : Nat
deriving DecidableEq, Repr

/-- Reconnect policy, mirroring struct ReconnectPolicy
(include/duct/duct_export.h); the floating-point backoff multiplier is
omitted, delays in milliseconds. -/
structure ReconnectPolicy where
  enabled : Bool
  initial_delay : Nat
  max_delay : Nat
  max_attempts : Nat
deriving DecidableEq, Repr

/-- Dial options: timeout, QoS block and reconnect policy (the field set
of DialOptions in include/duct/duct_export.h; the DialOptions the
implemented dial compiles against, include/duct/duct.h, carries only
timeout and qos, and neither version of dial in the sources reads any
reconnect field). -/
structure DialOptions where
  timeout : Nat
  qos : QosOptions
  reconnect : ReconnectPolicy
deriving DecidableEq, Repr

/-- The shape of the pipe stack a dial returns. -/
inductive PipeRepr where
  | raw (s : Scheme)
  | qosWrap (inner : PipeRepr)
  | reconnectWrap (inner : PipeRepr)
deriving DecidableEq, Repr

/-- duct::dial (the variant with QoS composition, src/qos_pipe.cc
lines 401-440, non-Windows build): dispatches tcp and shm to the raw
transports, wraps the result in a QosPipe exactly when
snd_hwm_bytes != 0 or the backpressure policy is not kBlock, and
returns NotSupported for every other scheme.  No reconnect wrapper is
ever applied. -/
def dial (scheme : Scheme) (opt : DialOptions) : DResult PipeRepr :=
  if scheme = Scheme.kTcp ∨ scheme = Scheme.kShm then
    let base := PipeRepr.raw scheme
    if opt.qos.snd_hwm_bytes ≠ 0 ∨
        opt.qos.backpressure ≠ BackpressurePolicy.kBlock then
      .ok (PipeRepr.qosWrap base)
    else .ok base
  else .error ⟨StatusCode.notSupported, "dial scheme not supported yet"⟩

/-- The scheme of the raw transport at the core of a pipe stack. -/
def corePipe : PipeRepr → Scheme
  | .raw s => s
  | .qosWrap p => corePipe p
  | .reconnectWrap p => corePipe p

def hasQosWrap : PipeRepr → Bool
  | .raw _ => false
  | .qosWrap _ => true
  | .reconnectWrap p => hasQosWrap p

def hasReconnectWrap : PipeRepr → Bool
  | .raw _ => false
  | .qosWrap p => hasReconnectWrap p
  | .reconnectWrap _ => true

end Duct

namespace Duct.wire

/-- kProtocolMagic from include/duct/protocol.h. -/
def kProtocolMagic : Nat := 0x44554354

/-- kProtocolVersion from include/duct/protocol.h. -/
def kProtocolVersion : Nat := 1

/-- kHeaderLen from include/duct/wire.h. -/
def kHeaderLen : Nat := 16

/-- kMaxFramePayload from include/duct/wire.h: 64 KiB. -/
def kMaxFramePayload : Nat := 64 * 1024

/-- Frame header, mirroring struct FrameHeader in include/duct/wire.h.
Fields are u32/u16/u16/u32/u32 in the source; here naturals with the
width bounds imposed where the statements need them. -/
structure FrameHeader where
  magic : Nat
  version : Nat
  header_len : Nat
  payload_len : Nat
  flags : Nat
deriving DecidableEq, Repr

/-- Big-endian (network byte order) encoding of a 32-bit value, as
produced by htonl followed by memcpy in encode_header. -/
def be32 (v : Nat) : List Nat :=
  [v / 2 ^ 24 % 256, v / 2 ^ 16 % 256, v / 2 ^ 8 % 256, v % 256]

/-- Big-endian (network byte order) encoding of a 16-bit value (htons). -/
def be16 (v : Nat) : List Nat :=
  [v / 2 ^ 8 % 256, v % 256]

/-- duct::wire::encode_header: writes magic, version, header_len,
payload_len, flags in network byte order into a 16-byte buffer. -/
def encode_header (h : FrameHeader) : List Nat :=
  be32 h.magic ++ be16 h.version ++ be16 h.header_len ++
    be32 h.payload_len ++ be32 h.flags

/-- Read a big-endian 32-bit value at offset i of a byte buffer
(memcpy + ntohl in decode_header). -/
def rd32 (bs : List Nat) (i : Nat) : Nat :=
  bs.getD i 0 * 2 ^ 24 + bs.getD (i + 1) 0 * 2 ^ 16 +
    bs.getD (i + 2) 0 * 2 ^ 8 + bs.getD (i + 3) 0

/-- Read a big-endian 16-bit value at offset i (memcpy + ntohs). -/
def rd16 (bs : List Nat) (i : Nat) : Nat :=
  bs.getD i 0 * 2 ^ 8 + bs.getD (i + 1) 0

/-- duct::wire::decode_header: reads the five fields in network byte order
from a 16-byte buffer and validates magic, version, header_len and
payload_len, returning ProtocolError statuses exactly as the source. -/
def decode_header (inBytes : List Nat) : DResult FrameHeader :=
  if rd32 inBytes 0 ≠ kProtocolMagic then
    .error ⟨StatusCode.protocolError, "bad magic"⟩
  else if rd16 inBytes 4 ≠ kProtocolVersion then
    .error ⟨StatusCode.protocolError, "unsupported version"⟩
  else if rd16 inBytes 6 ≠ kHeaderLen then
    .error ⟨StatusCode.protocolError, "bad header_len"⟩
  else if rd32 inBytes 8 > kMaxFramePayload then
    .error ⟨StatusCode.protocolError, "payload too large (frame)"⟩
  else
    .ok { magic := rd32 inBytes 0
          version := rd16 inBytes 4
          header_len := rd16 inBytes 6
          payload_len := rd32 inBytes 8
          flags := rd32 inBytes 12 }

/-- A header is valid in the sense of the decode invariants, with the
u32 typing bound on the flags field. -/
def validHeader (h : FrameHeader) : Prop :=
  h.magic = kProtocolMagic ∧ h.version = kProtocolVersion ∧
    h.header_len = kHeaderLen ∧ h.payload_len ≤ kMaxFramePayload ∧
    h.flags < 2 ^ 32

/-- duct::wire::write_frame: rejects payloads above 64 KiB with
InvalidArgument, otherwise emits the encoded header followed by the
payload bytes onto the stream. -/
def write_frame (msg : List Nat) (flags : Nat) : DResult (List Nat) :=
  if msg.length > kMaxFramePayload then
    .error ⟨StatusCode.invalidArgument, "message too large; enable fragmentation (todo)"⟩
  else
    .ok (encode_header
      { magic := kProtocolMagic
        version := kProtocolVersion
        header_len := kHeaderLen
        payload_len := msg.length
        flags := flags } ++ msg)

/-- The byte stream produced by a sequence of write_frame calls: each call
appends its bytes to the stream in call order. -/
def write_frames : List (List Nat × Nat) → DResult (List Nat)
  | [] => .ok []
  | (m, f) :: rest =>
      match write_frame m f with
      | .error st => .error st
      | .ok bytes =>
          match write_frames rest with
          | .error st => .error st
          | .ok tail => .ok (bytes ++ tail)

/-- duct::wire::read_frame: reads and validates a 16-byte header, then
reads exactly payload_len bytes.  End of stream during either read is the
Closed status (read_exact sees recv() return 0).  Returns the payload and
the remaining stream. -/
def read_frame (stream : List Nat) : DResult (List Nat × List Nat) :=
  if stream.length < kHeaderLen then .error ⟨StatusCode.closed, "peer closed"⟩
  else
    match decode_header (stream.take kHeaderLen) with
    | .error st => .error st
    | .ok h =>
        let rest := stream.drop kHeaderLen
        if rest.length < h.payload_len then .error ⟨StatusCode.closed, "peer closed"⟩
        else .ok (rest.take h.payload_len, rest.drop h.payload_len)

/-- n consecutive read_frame calls on a stream, collecting the payloads. -/
def read_frames : Nat → List Nat → DResult (List (List Nat))
  | 0, _ => .ok []
  | n + 1, stream =>
      match read_frame stream with
      | .error st => .error st
      | .ok (p, rest) =>
          match read_frames n rest with
          | .error st => .error st
          | .ok ps => .ok (p :: ps)

end Duct.wire

namespace Duct.shm

/-- kSlotPayloadMax from the shm transport: 64 KiB per slot. -/
def kSlotPayloadMax : Nat := 64 * 1024

/-- kSlotCount from the shm transport: 64 slots per ring. -/
def kSlotCount : Nat := 64

/-- One ring slot (struct Slot): the len field and the 64 KiB data
buffer, modelled as a byte-indexed function. -/
structure Slot where
  len : Nat
  data : Nat → Nat

/-- One direction of the shared ring together with its two counting
semaphores: head (producer counter), tail (consumer counter), the
items and spaces semaphore values, and the slot array indexed modulo
kSlotCount. -/
structure ShmRing where
  head : Nat
  tail : Nat
  items : Nat
  spaces : Nat
  slots : Nat → Slot

/-- The ring as created by shm_dial: zeroed region, items semaphore 0,
spaces semaphore kSlotCount. -/
def initRing : ShmRing :=
  { head := 0, tail := 0, items := 0, spaces := kSlotCount,
    slots := fun _ => { len := 0, data := fun _ => 0 } }

/-- ShmPipe::send on its TX ring: InvalidArgument above 64 KiB;
otherwise wait on the spaces semaphore (a wait that cannot be satisfied
at this point of the trace is the Timeout error of sem_wait_opt), write
len and memcpy the payload into the slot at head mod kSlotCount,
publish head + 1, post the items semaphore. -/
def shmSend (s : ShmRing) (msg : List Nat) : DResult ShmRing :=
  if msg.length > kSlotPayloadMax then
    .error ⟨StatusCode.invalidArgument, "message too large; fragmentation TODO"⟩
  else if s.spaces = 0 then
    .error ⟨StatusCode.timeout, "semaphore wait timeout"⟩
  else
    .ok { head := s.head + 1, tail := s.tail, items := s.items + 1,
          spaces := s.spaces - 1,
          slots := fun i =>
            if i = s.head % kSlotCount then
              { len := msg.length,
                data := fun j =>
                  if j < msg.length then msg.getD j 0 else (s.slots i).data j }
            else s.slots i }

/-- The counter updates a recv publishes: tail + 1 with the items
semaphore decremented and the spaces semaphore posted. -/
def recvStep (s : ShmRing) : ShmRing :=
  { head := s.head, tail := s.tail + 1, items := s.items - 1,
    spaces := s.spaces + 1, slots := s.slots }

/-- ShmPipe::recv on its RX ring: wait on the items semaphore, read the
slot at tail mod kSlotCount, reject len > 64 KiB with ProtocolError,
copy len bytes into a fresh message, publish tail + 1, post the spaces
semaphore. -/
def shmRecv (s : ShmRing) : DResult (ShmRing × List Nat) :=
  if s.items = 0 then
    .error ⟨StatusCode.timeout, "semaphore wait timeout"⟩
  else if (s.slots (s.tail % kSlotCount)).len > kSlotPayloadMax then
    .error ⟨StatusCode.protocolError, "shm slot len too large"⟩
  else
    .ok (recvStep s,
         (List.range (s.slots (s.tail % kSlotCount)).len).map
           (s.slots (s.tail % kSlotCount)).data)

/-- A producer or consumer step on a single ring direction. -/
inductive ShmOp where
  | send (msg : List Nat)
  | recv

/-- Run a trace of operations on the ring, collecting the received
messages in order; fails if any operation fails or would block. -/
def runShm : ShmRing → List ShmOp → DResult (ShmRing × List (List Nat))
  | s, [] => .ok (s, [])
  | s, .send m :: rest =>
      match shmSend s m with
      | .error st => .error st
      | .ok s' => runShm s' rest
  | s, .recv :: rest =>
      match shmRecv s with
      | .error st => .error st
      | .ok (s', out) =>
          match runShm s' rest with
          | .error st => .error st
          | .ok (sf, outs) => .ok (sf, out :: outs)

/-- The payloads of the send operations of a trace, in order. -/
def sentPayloads : List ShmOp → List (List Nat)
  | [] => []
  | .send m :: rest => m :: sentPayloads rest
  | .recv :: rest => sentPayloads rest

/-- Ring invariant relating the state to the list p of messages sent
but not yet received: the counters and semaphores agree with p, and the
slot for the k-th pending message holds its length and bytes. -/
def RingInv (s : ShmRing) (p : List (List Nat)) : Prop :=
  s.head = s.tail + p.length ∧
  s.items = p.length ∧
  s.spaces + p.length = kSlotCount ∧
  ∀ k, k < p.length →
    (s.slots ((s.tail + k) % kSlotCount)).len = (p.getD k []).length ∧
    (p.getD k []).length ≤ kSlotPayloadMax ∧
    ∀ j, j < (p.getD k []).length →
      (s.slots ((s.tail + k) % kSlotCount)).data j = (p.getD k []).getD j 0

end Duct.shm

namespace Duct.wire

theorem be32_length (v : Nat) : (be32 v).length = 4 := rfl

theorem be16_length (v : Nat) : (be16 v).length = 2 := rfl

theorem encode_header_length (h : FrameHeader) : (encode_header h).length = 16 := by
  simp [encode_header, be32, be16]

/-- Reassembling the four big-endian bytes of a 32-bit value restores it. -/
theorem be32_reassemble (v : Nat) (hv : v < 2 ^ 32) :
    v / 2 ^ 24 % 256 * 2 ^ 24 + v / 2 ^ 16 % 256 * 2 ^ 16 +
      v / 2 ^ 8 % 256 * 2 ^ 8 + v % 256 = v := by
  omega

/-- Reassembling the two big-endian bytes of a 16-bit value restores it. -/
theorem be16_reassemble (v : Nat) (hv : v < 2 ^ 16) :
    v / 2 ^ 8 % 256 * 2 ^ 8 + v % 256 = v := by
  omega

/-- The five fields read back from an encoded header are the original
fields, provided each fits its wire width. -/
theorem decode_fields_of_encode (h : FrameHeader)
    (hm : h.magic < 2 ^ 32) (hv : h.version < 2 ^ 16)
    (hh : h.header_len < 2 ^ 16) (hp : h.payload_len < 2 ^ 32)
    (hf : h.flags < 2 ^ 32) :
    rd32 (encode_header h) 0 = h.magic ∧
    rd16 (encode_header h) 4 = h.version ∧
    rd16 (encode_header h) 6 = h.header_len ∧
    rd32 (encode_header h) 8 = h.payload_len ∧
    rd32 (encode_header h) 12 = h.flags := by
  refine ⟨?_, ?_, ?_, ?_, ?_⟩ <;>
    · simp only [encode_header, be32, be16, rd32, rd16, List.cons_append,
        List.nil_append, List.getD_cons_zero, List.getD_cons_succ]
      omega

/-- Round-trip: decoding an encoded valid header succeeds with the same header. -/
theorem decode_encode_of_valid (h : FrameHeader) (hv : validHeader h) :
    decode_header (encode_header h) = .ok h := by
  obtain ⟨hm, hver, hhl, hpl, hfl⟩ := hv
  have hm32 : h.magic < 2 ^ 32 := by rw [hm]; decide
  have hv16 : h.version < 2 ^ 16 := by rw [hver]; decide
  have hh16 : h.header_len < 2 ^ 16 := by rw [hhl]; decide
  have hp32 : h.payload_len < 2 ^ 32 := by
    have : kMaxFramePayload < 2 ^ 32 := by decide
    omega
  obtain ⟨e1, e2, e3, e4, e5⟩ := decode_fields_of_encode h hm32 hv16 hh16 hp32 hfl
  simp only [decode_header, e1, e2, e3, e4, e5, hm, hver, hhl]
  simp only [ne_eq, not_true_eq_false, if_false,
    if_neg (by omega : ¬ h.payload_len > kMaxFramePayload)]
  cases h
  simp_all

/-- Every failing branch of decode_header returns a ProtocolError status. -/
theorem decode_header_error_code (bs : List Nat) (st : Status)
    (h : decode_header bs = .error st) : st.code = StatusCode.protocolError := by
  unfold decode_header at h
  split_ifs at h <;> · rw [← Except.error.inj h]

/-- decode_header succeeds exactly when all four invariants hold on the
decoded fields. -/
theorem decode_header_ok_iff (bs : List Nat) :
    (∃ h, decode_header bs = .ok h) ↔
      (rd32 bs 0 = kProtocolMagic ∧ rd16 bs 4 = kProtocolVersion ∧
        rd16 bs 6 = kHeaderLen ∧ rd32 bs 8 ≤ kMaxFramePayload) := by
  unfold decode_header
  split_ifs with h1 h2 h3 h4 <;> simp_all

/-- C3: decode_header inverts encode_header on every valid header, and
returns a ProtocolError status for every 16-byte input whose decoded
magic, version, header_len or payload_len violates the invariants. -/
theorem framing_header_roundtrip_and_reject :
    (∀ h : FrameHeader, validHeader h → decode_header (encode_header h) = .ok h) ∧
    (∀ bs : List Nat, bs.length = 16 → (∀ b ∈ bs, b < 256) →
      (rd32 bs 0 ≠ kProtocolMagic ∨ rd16 bs 4 ≠ kProtocolVersion ∨
        rd16 bs 6 ≠ kHeaderLen ∨ rd32 bs 8 > kMaxFramePayload) →
      resultCode (decode_header bs) = StatusCode.protocolError) := by
  constructor
  · exact decode_encode_of_valid
  · intro bs _ _ hviol
    cases hdec : decode_header bs with
    | ok h =>
        have hall := (decode_header_ok_iff bs).mp ⟨h, hdec⟩
        rcases hviol with hv | hv | hv | hv <;> [exact absurd hall.1 hv;
          exact absurd hall.2.1 hv; exact absurd hall.2.2.1 hv; omega]
    | error st =>
        simpa [resultCode] using decode_header_error_code bs st hdec

/-- Witness for C3 at concrete inputs: a valid header with payload_len 5
round-trips, and the all-zero 16-byte input is rejected with ProtocolError. -/
theorem framing_header_roundtrip_and_reject_witness :
    decode_header (encode_header ⟨kProtocolMagic, 1, 16, 5, 0⟩) =
        .ok ⟨kProtocolMagic, 1, 16, 5, 0⟩ ∧
      resultCode (decode_header (List.replicate 16 0)) = StatusCode.protocolError := by
  constructor
  · exact framing_header_roundtrip_and_reject.1 ⟨kProtocolMagic, 1, 16, 5, 0⟩
      (by refine ⟨rfl, rfl, rfl, by decide, by decide⟩)
  · exact framing_header_roundtrip_and_reject.2 (List.replicate 16 0)
      (by decide) (by decide) (Or.inl (by decide))

/-- Reading one frame from a stream that starts with a written frame
returns that frame's payload and the remaining stream. -/
theorem read_frame_of_write (msg : List Nat) (flags : Nat) (tail : List Nat)
    (hlen : msg.length ≤ kMaxFramePayload) (hf : flags < 2 ^ 32)
    (bytes : List Nat) (hw : write_frame msg flags = .ok bytes) :
    read_frame (bytes ++ tail) = .ok (msg, tail) := by
  unfold write_frame at hw
  rw [if_neg (by omega)] at hw
  set hdr : FrameHeader :=
    { magic := kProtocolMagic, version := kProtocolVersion, header_len := kHeaderLen,
      payload_len := msg.length, flags := flags } with hhdr
  have hbytes : bytes = encode_header hdr ++ msg := (Except.ok.inj hw).symm
  subst hbytes
  have hel : (encode_header hdr).length = 16 := encode_header_length hdr
  have hk16 : kHeaderLen = 16 := rfl
  have hslen : (encode_header hdr ++ msg ++ tail).length = 16 + msg.length + tail.length := by
    simp only [List.length_append, hel]
  have htake : (encode_header hdr ++ msg ++ tail).take kHeaderLen = encode_header hdr := by
    rw [List.append_assoc, show kHeaderLen = (encode_header hdr).length from hel.symm,
      List.take_left]
  have hdrop : (encode_header hdr ++ msg ++ tail).drop kHeaderLen = msg ++ tail := by
    rw [List.append_assoc, show kHeaderLen = (encode_header hdr).length from hel.symm,
      List.drop_left]
  have hvalid : validHeader hdr := ⟨rfl, rfl, rfl, hlen, hf⟩
  unfold read_frame
  rw [if_neg (by omega), htake, decode_encode_of_valid hdr hvalid]
  simp only [hdrop]
  rw [if_neg (by simp only [hhdr, List.length_append]; omega)]
  rw [List.take_left, List.drop_left]

/-- Unfolding lemma: a successful read_frame followed by n successful
reads gives n + 1 collected payloads. -/
theorem read_frames_succ (n : Nat) (stream rest2 p : List Nat)
    (h : read_frame stream = .ok (p, rest2)) (ps : List (List Nat))
    (h2 : read_frames n rest2 = .ok ps) :
    read_frames (n + 1) stream = .ok (p :: ps) := by
  unfold read_frames
  simp only [h, h2]

/-- C2: for any sequence of frames whose payloads are at most 64 KiB,
write_frames succeeds and reading the produced byte stream returns the
payloads byte-for-byte, in order. -/
theorem stream_framing_roundtrip (frames : List (List Nat × Nat))
    (hok : ∀ pf ∈ frames, pf.1.length ≤ kMaxFramePayload ∧ pf.2 < 2 ^ 32) :
    ∃ stream, write_frames frames = .ok stream ∧
      read_frames frames.length stream = .ok (frames.map Prod.fst) := by
  induction frames with
  | nil => exact ⟨[], rfl, rfl⟩
  | cons pf rest ih =>
      obtain ⟨m, f⟩ := pf
      obtain ⟨hm, hfw⟩ := hok (m, f) (by simp)
      have hm' : m.length ≤ kMaxFramePayload := hm
      have hfw' : f < 2 ^ 32 := hfw
      obtain ⟨tailStream, hwrest, hrrest⟩ := ih (fun q hq => hok q (by simp [hq]))
      have hw : write_frame m f = .ok (encode_header
          { magic := kProtocolMagic, version := kProtocolVersion,
            header_len := kHeaderLen, payload_len := m.length, flags := f } ++ m) := by
        unfold write_frame
        rw [if_neg (by omega)]
      refine ⟨(encode_header
          { magic := kProtocolMagic, version := kProtocolVersion,
            header_len := kHeaderLen, payload_len := m.length, flags := f } ++ m)
          ++ tailStream, ?_, ?_⟩
      · simp only [write_frames, hw, hwrest]
      · exact read_frames_succ rest.length _ tailStream m
          (read_frame_of_write m f tailStream hm' hfw' _ hw) _ hrrest

/-- Witness for C2 at a concrete input: the three-frame sequence of the
stream-framing test (payloads of sizes 3, 0, 2). -/
theorem stream_framing_roundtrip_witness :
    ∃ stream, write_frames [([1, 2, 3], 0), ([], 0), ([7, 9], 0)] = .ok stream ∧
      read_frames 3 stream = .ok [[1, 2, 3], [], [7, 9]] := by
  have := stream_framing_roundtrip [([1, 2, 3], 0), ([], 0), ([7, 9], 0)]
    (by intro pf hpf; fin_cases hpf <;> exact ⟨by decide, by decide⟩)
  simpa using this

end Duct.wire

namespace Duct

/-- Characterisation of the kDropOld loop: it removes exactly the minimal
number k of oldest entries after which space exists (or the queue is
exhausted), and every shorter removal still lacks space. -/
theorem dropUntil_spec (hwm : Nat) (q : List (List Nat)) (total : Nat) :
    ∃ k, k ≤ q.length ∧
      dropUntil hwm q total =
        (q.drop k, total - ((q.take k).map List.length).sum) ∧
      (hasSpace hwm (total - ((q.take k).map List.length).sum) = true ∨
        k = q.length) ∧
      ∀ j < k, hasSpace hwm (total - ((q.take j).map List.length).sum) = false := by
  induction q generalizing total with
  | nil =>
      exact ⟨0, Nat.le_refl 0, by simp [dropUntil], Or.inr rfl,
        fun j hj => absurd hj (Nat.not_lt_zero j)⟩
  | cons m rest ih =>
      by_cases hs : hasSpace hwm total = true
      · refine ⟨0, Nat.zero_le _, ?_, Or.inl (by simpa using hs),
          fun j hj => absurd hj (Nat.not_lt_zero j)⟩
        simp [dropUntil, hs]
      · obtain ⟨k, hk, hdrop, hcond, hmin⟩ := ih (total - m.length)
        refine ⟨k + 1, by simpa using Nat.succ_le_succ hk, ?_, ?_, ?_⟩
        · have hstep : dropUntil hwm (m :: rest) total =
              dropUntil hwm rest (total - m.length) := by
            simp [dropUntil, hs]
          rw [hstep, hdrop]
          have : total - m.length - ((rest.take k).map List.length).sum =
              total - (((m :: rest).take (k + 1)).map List.length).sum := by
            simp [List.take_succ_cons, Nat.sub_sub]
          rw [this]
          simp [List.drop_succ_cons]
        · rcases hcond with hsp | hlen
          · left
            have : total - m.length - ((rest.take k).map List.length).sum =
                total - (((m :: rest).take (k + 1)).map List.length).sum := by
              simp [List.take_succ_cons, Nat.sub_sub]
            rw [← this]
            exact hsp
          · right
            simp [hlen]
        · intro j hj
          match j with
          | 0 => simpa using Bool.eq_false_iff.mpr hs
          | jj + 1 =>
              have hjj : jj < k := by omega
              have := hmin jj hjj
              have heq : total - m.length - ((rest.take jj).map List.length).sum =
                  total - (((m :: rest).take (jj + 1)).map List.length).sum := by
                simp [List.take_succ_cons, Nat.sub_sub]
              rw [← heq]
              exact this

/-- C10: after close, every push returns Closed and leaves the queue
untouched; this covers both a push entered after close and a kBlock push
whose wait is released by close. -/
theorem closed_queue_push_rejected :
    (∀ (hwm : Nat) (policy : BackpressurePolicy) (s : QState) (msg : List Nat),
      s.closed = true →
      push hwm policy s msg = .done ⟨StatusCode.closed, "queue closed"⟩ s) ∧
    (∀ (hwm : Nat) (timeoutPos : Bool) (msg : List Nat) (w : QState),
      w.closed = true →
      pushResume hwm timeoutPos msg w =
        (⟨StatusCode.closed, "queue closed"⟩, w)) := by
  constructor
  · intro hwm policy s msg hc
    unfold push
    rw [if_pos hc]
  · intro hwm timeoutPos msg w hc
    unfold pushResume
    rw [if_neg (by simp [blockPred, hc]), if_pos hc]

/-- Witness for C10 at a concrete closed queue. -/
theorem closed_queue_push_rejected_witness :
    push 4 .kBlock ⟨[], 0, true⟩ [1] =
        .done ⟨StatusCode.closed, "queue closed"⟩ ⟨[], 0, true⟩ ∧
      pushResume 4 true [1] ⟨[], 0, true⟩ =
        (⟨StatusCode.closed, "queue closed"⟩, ⟨[], 0, true⟩) :=
  ⟨closed_queue_push_rejected.1 4 .kBlock ⟨[], 0, true⟩ [1] rfl,
    closed_queue_push_rejected.2 4 true [1] ⟨[], 0, true⟩ rfl⟩

/-- Counterexample to C4 as stated: with HWM 10 and the kBlock policy, a
20-byte message pushed into an empty open queue is enqueued, push returns
Ok, and the observable byte total is 20 > 10. -/
theorem push_can_exceed_hwm :
    push 10 .kBlock ⟨[], 0, false⟩ (List.replicate 20 7) =
        .done statusOkV ⟨[List.replicate 20 7], 20, false⟩ ∧
      size_bytes ⟨[List.replicate 20 7], 20, false⟩ > 10 := by
  constructor
  · decide
  · decide

/-- C4 (amended): with HWM h > 0, a push that returns either leaves the
observable byte total unchanged (rejected / dropped-new paths) or leaves
it strictly below h plus the size of the message just enqueued; the
total h itself may be exceeded by up to one message.  Both completion
paths of push are covered: immediate completion and resumption of a
kBlock wait. -/
theorem push_total_overshoot_bounded :
    (∀ (hwm : Nat) (policy : BackpressurePolicy) (s : QState) (msg : List Nat)
      (st : Status) (s' : QState), 0 < hwm → consistentQ s →
      push hwm policy s msg = .done st s' →
      size_bytes s' ≤ size_bytes s ∨ size_bytes s' < hwm + msg.length) ∧
    (∀ (hwm : Nat) (timeoutPos : Bool) (msg : List Nat) (w : QState)
      (st : Status) (w' : QState), 0 < hwm →
      (timeoutPos = false → blockPred hwm msg.length w = true) →
      pushResume hwm timeoutPos msg w = (st, w') →
      size_bytes w' ≤ size_bytes w ∨ size_bytes w' < hwm + msg.length) := by
  constructor
  · intro hwm policy s msg st s' h0 hcons hp
    unfold push at hp
    by_cases hc : s.closed
    · rw [if_pos hc] at hp
      simp only [PushOutcome.done.injEq] at hp
      exact Or.inl (le_of_eq (by rw [← hp.2]))
    · rw [if_neg hc] at hp
      by_cases htr : ¬ hasSpace hwm s.total_bytes ∨
          (s.total_bytes + msg.length > hwm ∧ 0 < hwm)
      · rw [if_pos htr] at hp
        cases policy with
        | kBlock =>
            by_cases hbp : blockPred hwm msg.length s = true
            · rw [if_pos hbp, if_neg hc] at hp
              simp only [PushOutcome.done.injEq] at hp
              have hs' : s' = enqueueMsg s msg := hp.2.symm
              subst hs'
              have hfacts : s.total_bytes < hwm ∨ s.total_bytes + msg.length ≤ hwm := by
                simp only [blockPred, hasSpace, Bool.or_eq_true,
                  decide_eq_true_eq] at hbp
                rcases hbp with ((hb | hb) | hb) | hb
                · exact absurd hb (by simpa using hc)
                · rcases Nat.eq_zero_or_pos hwm with hz | hz
                  · omega
                  · rw [if_neg (by omega)] at hb
                    exact Or.inl (by simpa using hb)
                · omega
                · exact Or.inr hb
              simp only [size_bytes, enqueueMsg]
              omega
            · rw [if_neg hbp] at hp
              exact absurd hp (by simp)
        | kDropNew =>
            simp only [PushOutcome.done.injEq] at hp
            exact Or.inl (le_of_eq (by rw [← hp.2]))
        | kDropOld =>
            obtain ⟨k, hk, hdrop, hcond, hmin⟩ :=
              dropUntil_spec hwm s.queue s.total_bytes
            simp only [hdrop, PushOutcome.done.injEq] at hp
            have hs' : s' = enqueueMsg
                { queue := s.queue.drop k,
                  total_bytes :=
                    s.total_bytes - ((s.queue.take k).map List.length).sum,
                  closed := s.closed } msg := hp.2.symm
            subst hs'
            simp only [size_bytes, enqueueMsg]
            rcases hcond with hsp | hlen
            · have : s.total_bytes - ((s.queue.take k).map List.length).sum < hwm := by
                simp only [hasSpace] at hsp
                rw [if_neg (by omega)] at hsp
                simpa using hsp
              omega
            · have : ((s.queue.take k).map List.length).sum = s.total_bytes := by
                rw [hlen, List.take_length, hcons]
              omega
        | kFailFast =>
            simp only [PushOutcome.done.injEq] at hp
            exact Or.inl (le_of_eq (by rw [← hp.2]))
      · rw [if_neg htr] at hp
        simp only [PushOutcome.done.injEq] at hp
        have hs' : s' = enqueueMsg s msg := hp.2.symm
        subst hs'
        push_neg at htr
        have hle : s.total_bytes + msg.length ≤ hwm := by omega
        simp only [size_bytes, enqueueMsg]
        omega
  · intro hwm timeoutPos msg w st w' h0 hwake hr
    unfold pushResume at hr
    by_cases hto : timeoutPos ∧ ¬ blockPred hwm msg.length w
    · rw [if_pos hto] at hr
      injection hr with h1 h2
      exact Or.inl (le_of_eq (by rw [h2]))
    · rw [if_neg hto] at hr
      by_cases hc : w.closed
      · rw [if_pos hc] at hr
        injection hr with h1 h2
        exact Or.inl (le_of_eq (by rw [h2]))
      · rw [if_neg hc] at hr
        injection hr with h1 h2
        have hw' : w' = enqueueMsg w msg := h2.symm
        subst hw'
        have hbp : blockPred hwm msg.length w = true := by
          cases timeoutPos with
          | false => exact hwake rfl
          | true => simpa using hto
        have hfacts : w.total_bytes < hwm ∨ w.total_bytes + msg.length ≤ hwm := by
          simp only [blockPred, hasSpace, Bool.or_eq_true, decide_eq_true_eq] at hbp
          rcases hbp with ((hb | hb) | hb) | hb
          · exact absurd hb (by simpa using hc)
          · rw [if_neg (by omega)] at hb
            exact Or.inl (by simpa using hb)
          · omega
          · exact Or.inr hb
        simp only [size_bytes, enqueueMsg]
        omega

/-- Witness for the amended C4 at concrete inputs: a 1-byte push into an
empty open queue with HWM 10, and a resumed kBlock push on an open queue. -/
theorem push_total_overshoot_bounded_witness :
    (size_bytes ⟨[[7]], 1, false⟩ ≤ size_bytes ⟨[], 0, false⟩ ∨
      size_bytes ⟨[[7]], 1, false⟩ < 10 + 1) ∧
    (size_bytes ⟨[[7]], 1, false⟩ ≤ size_bytes ⟨[], 0, false⟩ ∨
      size_bytes ⟨[[7]], 1, false⟩ < 10 + 1) :=
  ⟨push_total_overshoot_bounded.1 10 .kBlock ⟨[], 0, false⟩ [7] statusOkV
      ⟨[[7]], 1, false⟩ (by decide) rfl (by decide),
    push_total_overshoot_bounded.2 10 false [7] ⟨[], 0, false⟩ statusOkV
      ⟨[[7]], 1, false⟩ (by decide) (fun _ => by decide) (by decide)⟩

/-- Counterexample to C5 as stated: HWM 10, queue holding two 5-byte
entries (total 10), pushing an 8-byte message under kDropOld pops only
the first entry (total drops to 5 < 10) and then enqueues, leaving a
total of 13 > 10 — the new message was enqueued without fitting under
the byte limit. -/
theorem drop_old_does_not_fit_new_message :
    push 10 .kDropOld
        ⟨[List.replicate 5 1, List.replicate 5 2], 10, false⟩
        (List.replicate 8 3) =
      .done statusOkV
        ⟨[List.replicate 5 2, List.replicate 8 3], 13, false⟩ ∧
      size_bytes ⟨[List.replicate 5 2, List.replicate 8 3], 13, false⟩ > 10 := by
  constructor
  · decide
  · decide

/-- C5 (amended): under kDropOld, a push that triggers the backpressure
check pops the minimal number k of oldest entries after which the
tracked total is strictly below the HWM (or the queue is exhausted),
then enqueues the new message regardless of whether it fits, and returns
Ok. -/
theorem drop_old_pops_until_space (hwm : Nat) (s : QState) (msg : List Nat)
    (hc : s.closed = false)
    (htr : ¬ hasSpace hwm s.total_bytes ∨
      (s.total_bytes + msg.length > hwm ∧ 0 < hwm)) :
    ∃ k, k ≤ s.queue.length ∧
      push hwm .kDropOld s msg = .done statusOkV
        { queue := s.queue.drop k ++ [msg],
          total_bytes :=
            (s.total_bytes - ((s.queue.take k).map List.length).sum) + msg.length,
          closed := false } ∧
      (hasSpace hwm (s.total_bytes - ((s.queue.take k).map List.length).sum) = true ∨
        k = s.queue.length) ∧
      ∀ j < k, hasSpace hwm
        (s.total_bytes - ((s.queue.take j).map List.length).sum) = false := by
  obtain ⟨k, hk, hdrop, hcond, hmin⟩ := dropUntil_spec hwm s.queue s.total_bytes
  refine ⟨k, hk, ?_, hcond, hmin⟩
  unfold push
  rw [if_neg (by simp [hc]), if_pos htr]
  simp only [hdrop, enqueueMsg, hc]

/-- Witness for the amended C5 at the concrete counterexample input:
k = 1 entry is popped. -/
theorem drop_old_pops_until_space_witness :
    ∃ k, k ≤ 2 ∧
      push 10 .kDropOld
          ⟨[List.replicate 5 1, List.replicate 5 2], 10, false⟩
          (List.replicate 8 3) =
        .done statusOkV
          { queue :=
              ([List.replicate 5 1, List.replicate 5 2].drop k) ++ [List.replicate 8 3],
            total_bytes :=
              (10 - (([List.replicate 5 1, List.replicate 5 2].take k).map
                List.length).sum) + 8,
            closed := false } ∧
      (hasSpace 10 (10 - (([List.replicate 5 1, List.replicate 5 2].take k).map
          List.length).sum) = true ∨ k = 2) ∧
      ∀ j < k, hasSpace 10
        (10 - (([List.replicate 5 1, List.replicate 5 2].take j).map
          List.length).sum) = false := by
  have := drop_old_pops_until_space 10
      ⟨[List.replicate 5 1, List.replicate 5 2], 10, false⟩
      (List.replicate 8 3) (by decide) (by decide)
  simpa using this

/-- The bounded-queue half of C6, which does hold: with HWM 0 the byte
limit is disabled — every push into an open queue enqueues and returns
Ok without entering any backpressure-policy branch, for every policy and
message. -/
theorem hwm_zero_disables_queue_limit (policy : BackpressurePolicy)
    (s : QState) (msg : List Nat) (hc : s.closed = false) :
    push 0 policy s msg = .done statusOkV (enqueueMsg s msg) := by
  unfold push
  rw [if_neg (by simp [hc]), if_neg (by simp [hasSpace])]

/-- Counterexample to C6 as stated: with snd_hwm_bytes = 0, a 1-byte
send through the QoS wrapper on a running pipe with an empty queue is
rejected with InvalidArgument instead of being enqueued with Ok. -/
theorem qos_send_hwm_zero_rejects :
    qosSend 0 .kBlock ⟨true, [], 0, 0⟩ [1] =
        .done ⟨StatusCode.invalidArgument, "message too large for queue limits"⟩
          ⟨true, [], 0, 0⟩ ∧
      (⟨StatusCode.invalidArgument, "message too large for queue limits"⟩ :
        Status).code ≠ StatusCode.ok := by
  constructor
  · decide
  · decide

/-- C6 (amended): an HWM of 0 disables the byte limit only for the
bounded queue — every push into an open queue enqueues and returns Ok
with no policy applied — while QosPipe::send with snd_hwm_bytes = 0
rejects every message of positive size with InvalidArgument, for every
backpressure policy. -/
theorem hwm_zero_queue_unlimited_qos_rejecting :
    (∀ (policy : BackpressurePolicy) (s : QState) (msg : List Nat),
      s.closed = false →
      push 0 policy s msg = .done statusOkV (enqueueMsg s msg)) ∧
    (∀ (policy : BackpressurePolicy) (s : QosState) (msg : List Nat),
      s.running = true → 0 < msg.length →
      qosSend 0 policy s msg =
        .done ⟨StatusCode.invalidArgument, "message too large for queue limits"⟩ s) := by
  constructor
  · exact fun policy s msg hc => hwm_zero_disables_queue_limit policy s msg hc
  · intro policy s msg hr hm
    unfold qosSend
    rw [if_neg (by simp [hr]), if_pos (by omega)]

/-- Witness for the amended C6 at concrete inputs. -/
theorem hwm_zero_queue_unlimited_qos_rejecting_witness :
    push 0 .kFailFast ⟨[], 0, false⟩ [9] =
        .done statusOkV (enqueueMsg ⟨[], 0, false⟩ [9]) ∧
      qosSend 0 .kFailFast ⟨true, [], 0, 0⟩ [9] =
        .done ⟨StatusCode.invalidArgument, "message too large for queue limits"⟩
          ⟨true, [], 0, 0⟩ :=
  ⟨hwm_zero_queue_unlimited_qos_rejecting.1 .kFailFast ⟨[], 0, false⟩ [9] rfl,
    hwm_zero_queue_unlimited_qos_rejecting.2 .kFailFast ⟨true, [], 0, 0⟩ [9]
      rfl (by decide)⟩

/-- C7: along every event trace at most one inner pipe is installed at a
time; a disconnect-classified error whose snapshot is not the currently
installed pipe changes nothing; and one whose snapshot matches the
installed pipe on an open supervisor clears the inner pipe and
transitions to Disconnected. -/
theorem reconnect_single_inner_and_stale_errors_ignored :
    (∀ tr : List ReconEvent,
      (installedPipes (reconRun reconInit tr)).length ≤ 1) ∧
    (∀ (s : ReconState) (p snap : Nat) (code : StatusCode) (reason : String),
      s.inner = some p → snap ≠ p →
      reconStep s (.opError snap code reason) = s) ∧
    (∀ (s : ReconState) (p : Nat) (code : StatusCode) (reason : String),
      s.closed = false → s.inner = some p →
      (code = StatusCode.closed ∨ code = StatusCode.ioError) →
      (reconStep s (.opError p code reason)).inner = none ∧
      (reconStep s (.opError p code reason)).state = ConnectionState.kDisconnected) := by
  refine ⟨?_, ?_, ?_⟩
  · intro tr
    cases h : (reconRun reconInit tr).inner <;> simp [installedPipes, h]
  · intro s p snap code reason hinner hne
    simp only [reconStep, reconError]
    split_ifs with hcode
    · unfold markDisconnected
      split_ifs with hc
      · rfl
      · rw [hinner]
        simp only [ne_eq]
        rw [if_pos (fun hps => hne (hps.symm))]
    · rfl
  · intro s p code reason hc hinner hcode
    simp only [reconStep, reconError, if_pos hcode]
    unfold markDisconnected
    rw [if_neg (by simp [hc]), hinner]
    simp

/-- Witness for C7 at concrete inputs: a trace installing pipe 1, a
stale IoError from pipe 2 while pipe 1 is installed, and a matching
IoError from pipe 1. -/
theorem reconnect_single_inner_and_stale_errors_ignored_witness :
    (installedPipes (reconRun reconInit
        [.install 1, .opError 2 .ioError "boom"])).length ≤ 1 ∧
    reconStep ⟨false, false, .kConnected, true, "", some 1⟩
        (.opError 2 .ioError "boom") =
      ⟨false, false, .kConnected, true, "", some 1⟩ ∧
    (reconStep ⟨false, false, .kConnected, true, "", some 1⟩
        (.opError 1 .ioError "boom")).inner = none :=
  ⟨reconnect_single_inner_and_stale_errors_ignored.1
      [.install 1, .opError 2 .ioError "boom"],
    reconnect_single_inner_and_stale_errors_ignored.2.1
      ⟨false, false, .kConnected, true, "", some 1⟩ 1 2 .ioError "boom"
      rfl (by decide),
    (reconnect_single_inner_and_stale_errors_ignored.2.2
      ⟨false, false, .kConnected, true, "", some 1⟩ 1 .ioError "boom"
      rfl rfl (Or.inr rfl)).1⟩

/-- C9: a second close is a no-op.  For ShmPipe the handle sentinels
make the second call return early with no unmap/close/unlink; for
ReconnectPipe the closed_ latch does; and for QosPipe — whose close
re-invokes the inner close every time — the second call performs no
effects provided the inner pipe's close is itself idempotent in this
sense. -/
theorem pipe_close_idempotent :
    (∀ s : ShmCloseState, closeShm (closeShm s).1 = ((closeShm s).1, [])) ∧
    (∀ s : ReconState, closeReconEff (closeReconEff s).1 = ((closeReconEff s).1, [])) ∧
    (∀ (σ : Type) (innerClose : σ → σ × List CloseEffect),
      (∀ t, innerClose (innerClose t).1 = ((innerClose t).1, [])) →
      ∀ s : QosCloseState σ,
        closeQos innerClose (closeQos innerClose s).1 =
          ((closeQos innerClose s).1, [])) := by
  refine ⟨?_, ?_, ?_⟩
  · intro s
    by_cases h : s.mem = false ∧ s.fd = false
    · rw [show (closeShm s).1 = s by rw [closeShm, if_pos h]]
      rw [closeShm, if_pos h]
    · rw [show (closeShm s).1 =
          { mem := false, fd := false, c2s_items := false, c2s_spaces := false,
            s2c_items := false, s2c_spaces := false, owner := s.owner } by
        rw [closeShm, if_neg h]]
      rw [closeShm, if_pos ⟨rfl, rfl⟩]
  · intro s
    by_cases h : s.closed
    · rw [show (closeReconEff s).1 = s by rw [closeReconEff, if_pos h]]
      rw [closeReconEff, if_pos h]
    · rw [show (closeReconEff s).1 = reconClose s by rw [closeReconEff, if_neg h]]
      rw [closeReconEff, if_pos (by rw [reconClose, if_neg h])]
  · intro σ innerClose hidem s
    simp only [closeQos]
    rw [show (innerClose (innerClose s.inner).1) = ((innerClose s.inner).1, []) from
      hidem s.inner]

/-- Witness for C9 at concrete states: a live owning ShmPipe, a
connected ReconnectPipe, and a running QosPipe wrapping that ShmPipe. -/
theorem pipe_close_idempotent_witness :
    closeShm (closeShm ⟨true, true, true, true, true, true, true⟩).1 =
        ((closeShm ⟨true, true, true, true, true, true, true⟩).1, []) ∧
      closeReconEff (closeReconEff
          ⟨false, false, .kConnected, true, "", some 1⟩).1 =
        ((closeReconEff ⟨false, false, .kConnected, true, "", some 1⟩).1, []) ∧
      closeQos closeShm (closeQos closeShm
          ⟨true, ⟨true, true, true, true, true, true, true⟩⟩).1 =
        ((closeQos closeShm ⟨true, ⟨true, true, true, true, true, true, true⟩⟩).1, []) :=
  ⟨pipe_close_idempotent.1 ⟨true, true, true, true, true, true, true⟩,
    pipe_close_idempotent.2.1 ⟨false, false, .kConnected, true, "", some 1⟩,
    pipe_close_idempotent.2.2 ShmCloseState closeShm pipe_close_idempotent.1
      ⟨true, ⟨true, true, true, true, true, true, true⟩⟩⟩

/-- Counterexample to C8 as stated: dialling tcp with
reconnect.enabled = true (default QoS) yields a QoS wrapper over the raw
transport and no reconnect supervisor anywhere in the stack. -/
theorem dial_ignores_reconnect_policy :
    dial Scheme.kTcp
        ⟨0, ⟨4194304, 4194304, .kBlock, 0⟩, ⟨true, 100, 30000, 0⟩⟩ =
      .ok (PipeRepr.qosWrap (PipeRepr.raw Scheme.kTcp)) ∧
    hasReconnectWrap (PipeRepr.qosWrap (PipeRepr.raw Scheme.kTcp)) = false := by
  constructor
  · rfl
  · rfl

/-- C8 (amended): for the supported schemes (tcp, shm) dial returns the
raw transport wrapped in the QoS layer exactly when snd_hwm_bytes is
non-zero or the backpressure policy is not kBlock, and never wraps the
reconnect supervisor, whatever the reconnect policy says; every other
scheme yields NotSupported. -/
theorem dial_composition (scheme : Scheme) (opt : DialOptions) :
    ((scheme = Scheme.kTcp ∨ scheme = Scheme.kShm) →
      ∃ p, dial scheme opt = .ok p ∧ corePipe p = scheme ∧
        (hasQosWrap p = true ↔ (opt.qos.snd_hwm_bytes ≠ 0 ∨
          opt.qos.backpressure ≠ BackpressurePolicy.kBlock)) ∧
        hasReconnectWrap p = false) ∧
    (¬ (scheme = Scheme.kTcp ∨ scheme = Scheme.kShm) →
      resultCode (dial scheme opt) = StatusCode.notSupported) := by
  constructor
  · intro hs
    unfold dial
    rw [if_pos hs]
    by_cases hq : opt.qos.snd_hwm_bytes ≠ 0 ∨
        opt.qos.backpressure ≠ BackpressurePolicy.kBlock
    · exact ⟨PipeRepr.qosWrap (PipeRepr.raw scheme), by rw [if_pos hq],
        rfl, by simpa [hasQosWrap] using hq, rfl⟩
    · exact ⟨PipeRepr.raw scheme, by rw [if_neg hq], rfl,
        by simpa [hasQosWrap] using hq, rfl⟩
  · intro hs
    unfold dial
    rw [if_neg hs]
    rfl

/-- Witness for the amended C8: a supported scheme with QoS disabled and
an unsupported scheme. -/
theorem dial_composition_witness :
    (∃ p, dial Scheme.kShm ⟨0, ⟨0, 0, .kBlock, 0⟩, ⟨false, 100, 30000, 0⟩⟩ =
        .ok p ∧ corePipe p = Scheme.kShm ∧
        (hasQosWrap p = true ↔ ((0 : Nat) ≠ 0 ∨
          BackpressurePolicy.kBlock ≠ BackpressurePolicy.kBlock)) ∧
        hasReconnectWrap p = false) ∧
      resultCode (dial Scheme.kUds
        ⟨0, ⟨0, 0, .kBlock, 0⟩, ⟨false, 100, 30000, 0⟩⟩) =
        StatusCode.notSupported :=
  ⟨(dial_composition Scheme.kShm
      ⟨0, ⟨0, 0, .kBlock, 0⟩, ⟨false, 100, 30000, 0⟩⟩).1 (Or.inr rfl),
    (dial_composition Scheme.kUds
      ⟨0, ⟨0, 0, .kBlock, 0⟩, ⟨false, 100, 30000, 0⟩⟩).2 (by decide)⟩

end Duct

namespace Duct.shm

theorem ringInv_init : RingInv initRing [] := by
  refine ⟨rfl, rfl, rfl, ?_⟩
  intro k hk
  exact absurd hk (Nat.not_lt_zero k)

/-- Distinct offsets below the modulus land in distinct slots. -/
theorem add_mod_ne (t k l n : Nat) (hk : k < n) (hl : l < n) (hne : k ≠ l) :
    (t + k) % n ≠ (t + l) % n := by
  intro h
  have hmod : k % n = l % n := Nat.ModEq.add_left_cancel' t h
  rw [Nat.mod_eq_of_lt hk, Nat.mod_eq_of_lt hl] at hmod
  exact hne hmod

/-- Reading ℓ bytes from a buffer that agrees with a message of length ℓ
reproduces the message. -/
theorem range_map_eq_of_agrees (m : List Nat) (f : Nat → Nat)
    (hf : ∀ j, j < m.length → f j = m.getD j 0) :
    (List.range m.length).map f = m := by
  apply List.ext_getElem
  · simp
  · intro i h1 h2
    simp only [List.getElem_map, List.getElem_range]
    rw [hf i h2]
    exact List.getD_eq_getElem m 0 h2

/-- A successful send preserves the invariant with the message appended
to the pending list. -/
theorem ringInv_send (s : ShmRing) (p : List (List Nat)) (m : List Nat)
    (hinv : RingInv s p) (s' : ShmRing) (h : shmSend s m = .ok s') :
    RingInv s' (p ++ [m]) := by
  obtain ⟨hhead, hitems, hspaces, hslots⟩ := hinv
  unfold shmSend at h
  by_cases hlen : m.length > kSlotPayloadMax
  · rw [if_pos hlen] at h
    exact absurd h (by simp)
  · rw [if_neg hlen] at h
    by_cases hsp : s.spaces = 0
    · rw [if_pos hsp] at h
      exact absurd h (by simp)
    · rw [if_neg hsp] at h
      have hs' := (Except.ok.inj h).symm
      subst hs'
      have hplen : p.length < kSlotCount := by
        have : 0 < kSlotCount - p.length := by omega
        omega
      refine ⟨by simp; omega, by simp [hitems], by simp; omega, ?_⟩
      intro k hk
      rw [List.length_append, List.length_singleton] at hk
      by_cases hkp : k < p.length
      · have hne : (s.tail + k) % kSlotCount ≠ s.head % kSlotCount := by
          rw [hhead]
          exact add_mod_ne s.tail k p.length kSlotCount
            (Nat.lt_trans hkp hplen) hplen (Nat.ne_of_lt hkp)
        obtain ⟨h1, h2, h3⟩ := hslots k hkp
        have hget : (p ++ [m]).getD k [] = p.getD k [] :=
          List.getD_append p [m] [] k hkp
        refine ⟨?_, ?_, ?_⟩
        · simp only [if_neg hne, hget]
          exact h1
        · rw [hget]; exact h2
        · intro j hj
          rw [hget] at hj ⊢
          simp only [if_neg hne]
          exact h3 j hj
      · have hkeq : k = p.length := by omega
        subst hkeq
        have hidx : (s.tail + p.length) % kSlotCount = s.head % kSlotCount := by
          rw [hhead]
        have hget : (p ++ [m]).getD p.length [] = m := by
          rw [List.getD_append_right p [m] [] p.length (Nat.le_refl _)]
          simp
        refine ⟨?_, ?_, ?_⟩
        · simp [hidx, hget]
        · rw [hget]; omega
        · intro j hj
          rw [hget] at hj ⊢
          simp [hidx, hj]

/-- A successful recv removes the head of the pending list, returns its
bytes, and preserves the invariant. -/
theorem ringInv_recv (s : ShmRing) (m : List Nat) (p' : List (List Nat))
    (hinv : RingInv s (m :: p')) :
    shmRecv s = .ok (recvStep s, m) ∧ RingInv (recvStep s) p' := by
  obtain ⟨hhead, hitems, hspaces, hslots⟩ := hinv
  obtain ⟨h1, h2, h3⟩ := hslots 0 (by simp)
  simp only [List.getD_cons_zero] at h1 h2 h3
  have htail0 : (s.tail + 0) % kSlotCount = s.tail % kSlotCount := by
    rw [Nat.add_zero]
  rw [htail0] at h1 h3
  have hitems0 : s.items ≠ 0 := by
    rw [hitems]; simp
  constructor
  · unfold shmRecv
    rw [if_neg hitems0, if_neg (by rw [h1]; omega)]
    have hout : (List.range (s.slots (s.tail % kSlotCount)).len).map
        (s.slots (s.tail % kSlotCount)).data = m := by
      rw [h1]
      exact range_map_eq_of_agrees m _ h3
    rw [hout]
  · refine ⟨by simp [recvStep] at hhead ⊢; omega,
      by simp [recvStep] at hitems ⊢; omega,
      by simp [recvStep] at hspaces ⊢; omega, ?_⟩
    intro k hk
    obtain ⟨g1, g2, g3⟩ := hslots (k + 1) (by simpa using Nat.succ_lt_succ hk)
    simp only [List.getD_cons_succ] at g1 g2 g3
    have hsh : s.tail + 1 + k = s.tail + (k + 1) := by omega
    refine ⟨?_, g2, ?_⟩
    · simpa [recvStep, hsh] using g1
    · intro j hj
      have := g3 j hj
      simpa [recvStep, hsh] using this

/-- Trace lemma: running any trace from a state satisfying the invariant
with pending list p yields exactly the next received messages of
p followed by the trace's sends, in order. -/
theorem runShm_fifo (ops : List ShmOp) (s : ShmRing) (p : List (List Nat))
    (hinv : RingInv s p) (sf : ShmRing) (outs : List (List Nat))
    (h : runShm s ops = .ok (sf, outs)) :
    outs = (p ++ sentPayloads ops).take outs.length := by
  induction ops generalizing s p outs with
  | nil =>
      simp only [runShm] at h
      have houts : outs = [] := ((Prod.mk.injEq _ _ _ _).mp (Except.ok.inj h)).2.symm
      subst houts
      simp
  | cons op rest ih =>
      cases op with
      | send m =>
          simp only [runShm] at h
          cases hs : shmSend s m with
          | error st =>
              rw [hs] at h
              exact absurd h (by simp)
          | ok s' =>
              rw [hs] at h
              have hinv' := ringInv_send s p m hinv s' hs
              have hres := ih s' (p ++ [m]) hinv' outs h
              simpa only [sentPayloads, List.append_assoc, List.singleton_append]
                using hres
      | recv =>
          simp only [runShm] at h
          cases p with
          | nil =>
              have hz : s.items = 0 := hinv.2.1
              unfold shmRecv at h
              rw [if_pos hz] at h
              exact absurd h (by simp)
          | cons m p' =>
              obtain ⟨hrecv, hinv'⟩ := ringInv_recv s m p' hinv
              rw [hrecv] at h
              dsimp only at h
              cases hrun : runShm (recvStep s) rest with
              | error st =>
                  rw [hrun] at h
                  exact absurd h (by simp)
              | ok pr =>
                  obtain ⟨sf', outs'⟩ := pr
                  rw [hrun] at h
                  have hsf : sf' = sf :=
                    ((Prod.mk.injEq _ _ _ _).mp (Except.ok.inj h)).1
                  subst hsf
                  have houts : outs = m :: outs' :=
                    ((Prod.mk.injEq _ _ _ _).mp (Except.ok.inj h)).2.symm
                  subst houts
                  have hres := ih _ p' hinv' outs' hrun
                  simp only [sentPayloads, List.length_cons, List.cons_append,
                    List.take_succ_cons]
                  rw [← hres]

/-- C1: on a single ring direction, for every trace of successful sends
and recvs from the freshly created ring, the received messages are
exactly the first sent payloads byte-for-byte and in order — so the
i-th recv returns the i-th send's payload with its exact length,
zero-length payloads included. -/
theorem shm_ring_fifo (ops : List ShmOp) (sf : ShmRing)
    (outs : List (List Nat)) (h : runShm initRing ops = .ok (sf, outs)) :
    outs = (sentPayloads ops).take outs.length := by
  simpa using runShm_fifo ops initRing [] ringInv_init sf outs h

/-- Witness for C1 at a concrete trace: two sends (one of them
zero-length) followed by two recvs return both payloads in order. -/
theorem shm_ring_fifo_witness :
    ∃ sf outs,
      runShm initRing [ShmOp.send [1, 2, 3], ShmOp.send [], ShmOp.recv,
        ShmOp.recv] = .ok (sf, outs) ∧
      outs = (sentPayloads [ShmOp.send [1, 2, 3], ShmOp.send [], ShmOp.recv,
        ShmOp.recv]).take outs.length := by
  refine ⟨_, _, rfl, ?_⟩
  exact shm_ring_fifo _ _ _ rfl

end Duct.shm
